import Mathlib

/-!
Verification development for the introframe repository.

The repository contains two variants of the scene-change detection loop:

* `src/scene_capture.py` — a standalone script: reads one frame as the initial
  reference, then in a `while` loop reads frames, counts them in `frame_count`
  (starting at 1 for the first in-loop read), skips frames with odd
  `frame_count` (`frame_count % 2 != 0: continue`), and for the remaining
  frames compares grayscale sum-of-absolute-differences against a threshold,
  saving the candidate frame as `scene_<saved_count:03>.jpg` when the score
  strictly exceeds the threshold.  `prev_frame = frame` runs at the end of
  every evaluated iteration, regardless of the detection outcome.

* `src/app.py` (lines 226–304) — the Streamlit variant: computes
  `frames_to_process = int(fps * max_duration_sec)` clamped to `total_frames`
  (after first computing `duration_video = total_frames / fps`, which raises
  `ZeroDivisionError` when `fps = 0`), reads one frame before the loop, then
  loops `while success and frame_count < frames_to_process`.  There is no
  stride-2 skip: the iteration with `frame_count == 1` replaces the reference
  and `continue`s, and every later frame is evaluated.  Both the detection and
  the non-detection branch set `prev_frame = frame`.

Frames are decoded 8-bit BGR images; grayscale conversion is OpenCV's
fixed-point `cvtColor(..., COLOR_BGR2GRAY)`; `cv2.absdiff` and `np.sum` give
the score.  The embedding below models frames as rectangular lists of
`Fin 256` BGR triples and the frame stream of a video as the `List` of frames
that successive `cap.read()` calls would yield.
-/

namespace IntroFrame

/-- A decoded pixel: 8-bit blue, green and red channels, in OpenCV's BGR
channel order. -/
abbrev Pix : Type := Fin 256 × Fin 256 × Fin 256

/-- A decoded frame: a grid of pixels (list of rows). -/
abbrev Frame : Type := List (List Pix)

/-- OpenCV's fixed-point BGR→gray conversion for one pixel:
`Y = (B*1868 + G*9617 + R*4899 + 8192) >> 14`, the integer-arithmetic form of
`0.114·B + 0.587·G + 0.299·R` with coefficients scaled by `2^14` and rounded
to nearest.  This is what `cv2.cvtColor(frame, cv2.COLOR_BGR2GRAY)` computes
per pixel. -/
def bgr2gray (p : Pix) : Nat :=
  (p.1.val * 1868 + p.2.1.val * 9617 + p.2.2.val * 4899 + 8192) / 16384

/-- `cv2.cvtColor(f, cv2.COLOR_BGR2GRAY)`: per-pixel grayscale conversion. -/
def cvtColorGray (f : Frame) : List (List Nat) :=
  f.map (fun row => row.map bgr2gray)

/-- `cv2.absdiff(a, b)`: element-wise absolute difference of two grayscale
images. -/
def absdiff (a b : List (List Nat)) : List (List Nat) :=
  List.zipWith (fun r1 r2 => List.zipWith Nat.dist r1 r2) a b

/-- `np.sum(m)` over a 2-D array: the sum of all entries.  NumPy accumulates
`uint8` entries in a machine-word accumulator, which never overflows for any
realistic frame, so a plain natural-number sum is the faithful model. -/
def npSum (m : List (List Nat)) : Nat :=
  (m.map (fun r => r.sum)).sum

/-- The difference score computed by both loops:
`np.sum(cv2.absdiff(cv2.cvtColor(prev), cv2.cvtColor(frame)))`. -/
def total_pixel_difference (prev frame : Frame) : Nat :=
  npSum (absdiff (cvtColorGray prev) (cvtColorGray frame))

/-- Digit extraction with explicit fuel (structural recursion, so that the
kernel can evaluate it); the fuel never runs out when it starts at `n`,
because `n / 10 < n` for `n ≥ 10`. -/
def decimalDigitsAux : Nat → Nat → List Char
  | 0, n => [Nat.digitChar n]
  | fuel + 1, n =>
    if n < 10 then [Nat.digitChar n]
    else decimalDigitsAux fuel (n / 10) ++ [Nat.digitChar (n % 10)]

/-- Decimal digits of a natural number, most significant first — the model of
Python's `str(n)` for a non-negative integer. -/
def decimalDigits (n : Nat) : List Char :=
  decimalDigitsAux n n

/-- Python's `f"{n:03}"`: the decimal representation of `n`, left-padded with
zeros to a minimum width of 3 characters, as a character list. -/
def fmt3 (n : Nat) : List Char :=
  List.replicate (3 - (decimalDigits n).length) '0' ++ decimalDigits n

/-- The output filename built by both loops for the `n`-th saved scene:
`f"scene_{saved_count:03}.jpg"` (the constant output-directory path prefix is
dropped; `os.listdir` returns these basenames). -/
def sceneFilenameL (n : Nat) : List Char :=
  "scene_".toList ++ fmt3 n ++ ".jpg".toList

/-- `sceneFilenameL` packed as a string. -/
def sceneFilename (n : Nat) : String :=
  String.mk (sceneFilenameL n)

/-- One evaluated comparison of the detection loop (ghost record of an
iteration that reached the `total_pixel_difference` computation):
`pos` is the value of the `frame_count` variable at that iteration, `ref` the
reference frame (`prev_frame`), `cand` the newly read frame, `score` the
difference score and `fired` whether the `score > threshold` branch was
taken. -/
structure Comparison where
  pos : Nat
  ref : Frame
  cand : Frame
  score : Nat
  fired : Bool
  deriving DecidableEq

/-- The observable outcome of one run of a detection loop: the final
`saved_count`, the written images as `(filename, frame)` pairs in
chronological write order, and the list of evaluated comparisons in
chronological order. -/
structure RunResult where
  savedCount : Nat
  saved : List (String × Frame)
  comps : List Comparison
  deriving DecidableEq

/-- The `while` loop of `src/app.py` lines 254–287, as a recursion over the
not-yet-read frames.  Parameters mirror the Python locals: `prev` is
`prev_frame`, `frameCount` is `frame_count`, `savedCount` is `saved_count`.
An empty remaining stream models `cap.read()` returning `success = False`
(the loop `break`s); the `frameCount < ftp` guard is the loop condition
`frame_count < frames_to_process`.  (The code checks the guard before the
read; when the stream is empty both orders yield the same result, so the
list-first match is observationally identical.) -/
def appLoop (thr ftp : Nat) : List Frame → Frame → Nat → Nat → RunResult
  | [], _, _, savedCount => ⟨savedCount, [], []⟩
  | frame :: rest, prev, frameCount, savedCount =>
    if frameCount < ftp then
      if frameCount + 1 = 1 then
        -- `if frame_count == 1: prev_frame = frame; continue`
        appLoop thr ftp rest frame (frameCount + 1) savedCount
      else
        let score := total_pixel_difference prev frame
        if thr < score then
          let r := appLoop thr ftp rest frame (frameCount + 1) (savedCount + 1)
          ⟨r.savedCount, (sceneFilename savedCount, frame) :: r.saved,
            ⟨frameCount + 1, prev, frame, score, true⟩ :: r.comps⟩
        else
          let r := appLoop thr ftp rest frame (frameCount + 1) savedCount
          ⟨r.savedCount, r.saved,
            ⟨frameCount + 1, prev, frame, score, false⟩ :: r.comps⟩
    else ⟨savedCount, [], []⟩

/-- The `src/app.py` detection pipeline from the initial
`success, prev_frame = cap.read()` (line 247) onward: the first decoded frame
becomes the initial `prev_frame`; if no frame decodes the loop body never
runs and the run ends with `saved_count = 0`. -/
def appRun (thr ftp : Nat) : List Frame → RunResult
  | [] => ⟨0, [], []⟩
  | f0 :: rest => appLoop thr ftp rest f0 0 0

/-- The `while success:` loop of `src/scene_capture.py` lines 26–44.
`frame_count` starts at 0 and is incremented after each in-loop read; frames
with odd `frame_count` are skipped (`if frame_count % 2 != 0: continue`)
without touching `prev_frame`; evaluated frames always end their iteration
with `prev_frame = frame`. -/
def sceneLoop (thr : Nat) : List Frame → Frame → Nat → Nat → RunResult
  | [], _, _, savedCount => ⟨savedCount, [], []⟩
  | frame :: rest, prev, frameCount, savedCount =>
    if (frameCount + 1) % 2 ≠ 0 then
      sceneLoop thr rest prev (frameCount + 1) savedCount
    else
      let score := total_pixel_difference prev frame
      if thr < score then
        let r := sceneLoop thr rest frame (frameCount + 1) (savedCount + 1)
        ⟨r.savedCount, (sceneFilename savedCount, frame) :: r.saved,
          ⟨frameCount + 1, prev, frame, score, true⟩ :: r.comps⟩
      else
        let r := sceneLoop thr rest frame (frameCount + 1) savedCount
        ⟨r.savedCount, r.saved,
          ⟨frameCount + 1, prev, frame, score, false⟩ :: r.comps⟩

/-- The `src/scene_capture.py` pipeline from `success, prev_frame = cap.read()`
(line 22) onward (the moviepy 4-second trim happens before this read, so the
input list is already the trimmed stream). -/
def sceneRun (thr : Nat) : List Frame → RunResult
  | [] => ⟨0, [], []⟩
  | f0 :: rest => sceneLoop thr rest f0 0 0

/-- Outcome of processing one uploaded video in `src/app.py`:
`openFailed` models the `not cap.isOpened()` branch (error message, then
`continue` to the next file); `processingError` models an exception reaching
the blanket `except` handler (error message, processing of this file stops);
`completed r` is a normal run of the detection loop. -/
inductive Outcome where
  | openFailed : Outcome
  | processingError : Outcome
  | completed : RunResult → Outcome
  deriving DecidableEq

/-- Whether an outcome is one of the two error paths. -/
def Outcome.isFailure : Outcome → Bool
  | .openFailed => true
  | .processingError => true
  | .completed _ => false

/-- Number of evaluated comparisons in an outcome. -/
def Outcome.evaluatedCount : Outcome → Nat
  | .completed r => r.comps.length
  | _ => 0

/-- `src/app.py` lines 230–289 for a single uploaded video.  `isOpened` is
`cap.isOpened()`, `fps` is `cap.get(cv2.CAP_PROP_FPS)` (a non-negative value
in any actual run), `total` is `total_frames`, `dur` is the integer
`max_duration_sec` slider value.  The line
`duration_video = total_frames / fps` raises `ZeroDivisionError` when
`fps = 0`, which the blanket `except` catches — modelled as
`processingError`.  Otherwise `frames_to_process = int(fps * max_duration_sec)`
(truncation equals `⌊·⌋` for the non-negative values involved) is clamped to
`total` and the loop runs. -/
def appProcess (isOpened : Bool) (fps : ℚ) (total dur thr : Nat)
    (frames : List Frame) : Outcome :=
  if !isOpened then .openFailed
  else if fps = 0 then .processingError
  else
    let ftp0 := ((fps * (dur : ℚ)).floor).toNat
    let ftp := if ftp0 > total then total else ftp0
    .completed (appRun thr ftp frames)

/-- One uploaded video: `cap.isOpened()` result, reported fps, reported total
frame count, and the decodable frame stream. -/
structure VideoInput where
  isOpened : Bool
  fps : ℚ
  total : Nat
  frames : List Frame

/-- The `for uploaded_file in uploaded_files:` batch loop of `src/app.py`:
each video is processed independently; both the `continue` after an open
failure and the `except` handler let the loop move on to the next file. -/
def batchProcess (dur thr : Nat) (inputs : List VideoInput) : List Outcome :=
  inputs.map (fun v => appProcess v.isOpened v.fps v.total dur thr v.frames)

/-- Which `cv2.imwrite` calls actually persist an image is decided by the
filesystem (`wok` maps a filename to the success of its write); the code
ignores `imwrite`'s return value, so the run is unaffected.  The images
actually on disk after a run are the written pairs whose write succeeded. -/
def persistedImages (wok : String → Bool) (r : RunResult) : List (String × Frame) :=
  r.saved.filter (fun p => wok p.1)

/-- Python string comparison (`sorted` uses it): lexicographic order on the
code-point sequences. -/
def lexLe : List Char → List Char → Bool
  | [], _ => true
  | _ :: _, [] => false
  | a :: as, b :: bs => if a < b then true else if b < a then false else lexLe as bs

/-- Order on `(filename, frame)` pairs by Python string comparison of the
filenames — the order `sorted(os.listdir(...))` establishes on the output
images (`src/app.py` line 299). -/
def savedLe (p q : String × Frame) : Prop :=
  lexLe p.1.toList q.1.toList = true

instance : DecidableRel savedLe := fun p q =>
  inferInstanceAs (Decidable (lexLe p.1.toList q.1.toList = true))

/-- A frame has `h` rows of `w` pixels each. -/
def frameDims (h w : Nat) (f : Frame) : Bool :=
  (f.length == h) && f.all (fun row => row.length == w)

/-- A solid-black 1×1 frame. -/
def blackF : Frame := [[((0 : Fin 256), (0 : Fin 256), (0 : Fin 256))]]

/-- A solid-white 1×1 frame. -/
def whiteF : Frame := [[((255 : Fin 256), (255 : Fin 256), (255 : Fin 256))]]

/-- An alternating black/white 1×1 frame, by index parity. -/
def altF (i : Nat) : Frame := if i % 2 = 0 then blackF else whiteF

/-- `n` alternating frames starting at index `k`. -/
def altStream (k n : Nat) : List Frame :=
  (List.range n).map (fun j => altF (k + j))

/-- Two frame streams agree at every even (0-based) position.  In the
`scene_capture.py` loop the frames at odd 0-based stream positions are
exactly the skipped ones (`frame_count` odd), so two streams related by this
predicate differ only in skipped frames. -/
def agreeOnEven (l1 l2 : List Frame) : Bool :=
  (List.range l1.length).all (fun i => if i % 2 = 0 then l1[i]? == l2[i]? else true)

/-- Two evaluated comparisons are consecutive: the later one's reference
frame is the earlier one's candidate frame. -/
def refCand (a b : Comparison) : Prop := b.ref = a.cand

/-- A 1003-frame alternating black/white stream: the `src/app.py` loop
evaluates 1001 comparisons on it and every one fires at threshold 0. -/
def bigAltInput : List Frame := altF 0 :: altF 1 :: altStream 2 1001

/-! ### Score bounds -/

theorem bgr2gray_le (p : Pix) : bgr2gray p ≤ 255 := by
  have hb : p.1.val ≤ 255 := Nat.lt_succ_iff.mp p.1.isLt
  have hg : p.2.1.val ≤ 255 := Nat.lt_succ_iff.mp p.2.1.isLt
  have hr : p.2.2.val ≤ 255 := Nat.lt_succ_iff.mp p.2.2.isLt
  have hnum : p.1.val * 1868 + p.2.1.val * 9617 + p.2.2.val * 4899 + 8192 ≤ 4186112 := by
    omega
  calc bgr2gray p ≤ 4186112 / 16384 := Nat.div_le_div_right hnum
    _ = 255 := by norm_num

theorem sum_zipWith_dist_le (x y : List Nat)
    (hx : ∀ v ∈ x, v ≤ 255) (hy : ∀ v ∈ y, v ≤ 255) :
    (List.zipWith Nat.dist x y).sum ≤ x.length * 255 := by
  induction x generalizing y with
  | nil => simp
  | cons a x ih =>
    cases y with
    | nil => simp
    | cons b y =>
      have ha : a ≤ 255 := hx a (by simp)
      have hb : b ≤ 255 := hy b (by simp)
      have hd : Nat.dist a b ≤ 255 := by
        simp only [Nat.dist]; omega
      have htail := ih y (fun v hv => hx v (List.mem_cons_of_mem _ hv))
        (fun v hv => hy v (List.mem_cons_of_mem _ hv))
      simp only [List.zipWith_cons_cons, List.sum_cons, List.length_cons]
      calc Nat.dist a b + (List.zipWith Nat.dist x y).sum
          ≤ 255 + x.length * 255 := Nat.add_le_add hd htail
        _ = (x.length + 1) * 255 := by ring

theorem mem_map_bgr2gray_le (row : List Pix) : ∀ v ∈ row.map bgr2gray, v ≤ 255 := by
  intro v hv
  rcases List.mem_map.mp hv with ⟨p, _, rfl⟩
  exact bgr2gray_le p

theorem npSum_absdiff_le (w : Nat) :
    ∀ (A B : List (List Pix)), (∀ r ∈ A, r.length = w) →
      npSum (absdiff (cvtColorGray A) (cvtColorGray B)) ≤ A.length * (w * 255) := by
  intro A
  induction A with
  | nil => intro B _; simp [cvtColorGray, absdiff, npSum]
  | cons ra A ih =>
    intro B hA
    cases B with
    | nil => simp [cvtColorGray, absdiff, npSum]
    | cons rb B =>
      have hrow : (List.zipWith Nat.dist (ra.map bgr2gray) (rb.map bgr2gray)).sum
          ≤ ra.length * 255 := by
        have := sum_zipWith_dist_le (ra.map bgr2gray) (rb.map bgr2gray)
          (mem_map_bgr2gray_le ra) (mem_map_bgr2gray_le rb)
        simpa using this
      have hlen : ra.length = w := hA ra (by simp)
      have htail := ih B (fun r hr => hA r (by simp [hr]))
      simp only [cvtColorGray, absdiff, npSum, List.map_cons, List.zipWith_cons_cons,
        List.sum_cons, List.length_cons] at htail ⊢
      calc (List.zipWith Nat.dist (ra.map bgr2gray) (rb.map bgr2gray)).sum
            + (List.map List.sum
                (List.zipWith (fun r1 r2 => List.zipWith Nat.dist r1 r2)
                  (A.map fun row => row.map bgr2gray) (B.map fun row => row.map bgr2gray))).sum
          ≤ w * 255 + A.length * (w * 255) := by
            exact Nat.add_le_add (hlen ▸ hrow) htail
        _ = (A.length + 1) * (w * 255) := by ring

/-- The difference score never exceeds `height × width × 255` for frames of
the given resolution. -/
theorem total_pixel_difference_le (h w : Nat) (a b : Frame)
    (ha : frameDims h w a = true) : total_pixel_difference a b ≤ h * w * 255 := by
  simp only [frameDims, Bool.and_eq_true, beq_iff_eq, List.all_eq_true] at ha
  have := npSum_absdiff_le w a b (fun r hr => by
    have := ha.2 r hr
    simpa using this)
  simpa [total_pixel_difference, ha.1, Nat.mul_assoc] using this

/-! ### Lemmas about the `app.py` loop -/

theorem appLoop_comps_length_le (thr ftp : Nat) :
    ∀ (rest : List Frame) (prev : Frame) (fc sc : Nat),
      (appLoop thr ftp rest prev fc sc).comps.length ≤ ftp - fc := by
  intro rest
  induction rest with
  | nil => intro prev fc sc; simp [appLoop]
  | cons f rest ih =>
    intro prev fc sc
    simp only [appLoop]
    split
    · split
      · exact le_trans (ih f (fc + 1) sc) (by omega)
      · split
        · have := ih f (fc + 1) (sc + 1)
          simp only [List.length_cons]
          omega
        · have := ih f (fc + 1) sc
          simp only [List.length_cons]
          omega
    · simp

theorem appLoop_fired_iff (thr ftp : Nat) :
    ∀ (rest : List Frame) (prev : Frame) (fc sc : Nat),
      ∀ c ∈ (appLoop thr ftp rest prev fc sc).comps, (c.fired = true ↔ thr < c.score) := by
  intro rest
  induction rest with
  | nil => intro prev fc sc c hc; simp [appLoop] at hc
  | cons f rest ih =>
    intro prev fc sc c hc
    simp only [appLoop] at hc
    split at hc
    · split at hc
      · exact ih f (fc + 1) sc c hc
      · split at hc
        · rcases List.mem_cons.mp hc with rfl | hc
          · simpa using (by assumption : thr < total_pixel_difference prev f)
          · exact ih f (fc + 1) (sc + 1) c hc
        · rcases List.mem_cons.mp hc with rfl | hc
          · simpa using (by assumption : ¬ thr < total_pixel_difference prev f)
          · exact ih f (fc + 1) sc c hc
    · simp at hc

theorem appLoop_chain (thr ftp : Nat) :
    ∀ (rest : List Frame) (prev : Frame) (fc sc : Nat), 1 ≤ fc →
      List.Chain' refCand (appLoop thr ftp rest prev fc sc).comps ∧
      (∀ c, (appLoop thr ftp rest prev fc sc).comps.head? = some c → c.ref = prev) := by
  intro rest
  induction rest with
  | nil => intro prev fc sc _; simp [appLoop]
  | cons f rest ih =>
    intro prev fc sc hfc
    simp only [appLoop]
    split
    · have hne : ¬ fc + 1 = 1 := by omega
      rw [if_neg hne]
      split
      · rcases ih f (fc + 1) (sc + 1) (by omega) with ⟨hch, hhd⟩
        refine ⟨List.chain'_cons'.mpr ⟨?_, hch⟩, ?_⟩
        · intro b hb
          have := hhd b (by
            cases hc : (appLoop thr ftp rest f (fc + 1) (sc + 1)).comps with
            | nil => simp [hc] at hb
            | cons c l => simp [hc] at hb ⊢; exact hb)
          simpa [refCand] using this
        · intro c hc
          simp only [List.head?_cons, Option.some.injEq] at hc
          subst hc; rfl
      · rcases ih f (fc + 1) sc (by omega) with ⟨hch, hhd⟩
        refine ⟨List.chain'_cons'.mpr ⟨?_, hch⟩, ?_⟩
        · intro b hb
          have := hhd b (by
            cases hc : (appLoop thr ftp rest f (fc + 1) sc).comps with
            | nil => simp [hc] at hb
            | cons c l => simp [hc] at hb ⊢; exact hb)
          simpa [refCand] using this
        · intro c hc
          simp only [List.head?_cons, Option.some.injEq] at hc
          subst hc; rfl
    · simp

theorem appLoop_names (thr ftp : Nat) :
    ∀ (rest : List Frame) (prev : Frame) (fc sc : Nat),
      ∃ k, (appLoop thr ftp rest prev fc sc).savedCount = sc + k ∧
        (appLoop thr ftp rest prev fc sc).saved.map Prod.fst
          = (List.range' sc k).map sceneFilename := by
  intro rest
  induction rest with
  | nil => intro prev fc sc; exact ⟨0, by simp [appLoop]⟩
  | cons f rest ih =>
    intro prev fc sc
    simp only [appLoop]
    split
    · split
      · exact ih f (fc + 1) sc
      · split
        · rcases ih f (fc + 1) (sc + 1) with ⟨k, hk, hm⟩
          refine ⟨k + 1, ?_, ?_⟩
          · show (appLoop thr ftp rest f (fc + 1) (sc + 1)).savedCount = sc + (k + 1)
            omega
          · show ((sceneFilename sc, f) ::
                (appLoop thr ftp rest f (fc + 1) (sc + 1)).saved).map Prod.fst
              = (List.range' sc (k + 1)).map sceneFilename
            simp only [List.map_cons, hm, List.range'_succ]
        · rcases ih f (fc + 1) sc with ⟨k, hk, hm⟩
          exact ⟨k, hk, hm⟩
    · exact ⟨0, by simp⟩

theorem appLoop_nofire (thr ftp h w : Nat) (hthr : h * w * 255 < thr) :
    ∀ (rest : List Frame) (prev : Frame) (fc sc : Nat),
      rest.all (frameDims h w) = true → frameDims h w prev = true →
      (appLoop thr ftp rest prev fc sc).savedCount = sc ∧
      (appLoop thr ftp rest prev fc sc).saved = [] ∧
      (∀ c ∈ (appLoop thr ftp rest prev fc sc).comps, c.fired = false) := by
  intro rest
  induction rest with
  | nil => intro prev fc sc _ _; simp [appLoop]
  | cons f rest ih =>
    intro prev fc sc hall hprev
    simp only [List.all_cons, Bool.and_eq_true] at hall
    have hscore : total_pixel_difference prev f ≤ h * w * 255 :=
      total_pixel_difference_le h w prev f hprev
    simp only [appLoop]
    split
    · split
      · exact ih f (fc + 1) sc hall.2 hall.1
      · split
        · exfalso
          have hlt : thr < total_pixel_difference prev f := by assumption
          omega
        · rcases ih f (fc + 1) sc hall.2 hall.1 with ⟨h1, h2, h3⟩
          refine ⟨h1, h2, ?_⟩
          intro c hc
          rcases List.mem_cons.mp hc with rfl | hc
          · rfl
          · exact h3 c hc
    · simp

theorem altF_add_two (k : Nat) : altF (k + 2) = altF k := by
  simp [altF, Nat.add_mod_right]

theorem altStream_succ (k n : Nat) :
    altStream k (n + 1) = altF k :: altStream (k + 1) n := by
  simp only [altStream, List.range_succ_eq_map, List.map_cons, List.map_map, List.cons.injEq]
  refine ⟨by simp, ?_⟩
  apply List.map_congr_left
  intro j _
  simp only [Function.comp_apply]
  congr 1
  omega

theorem tpd_alt (k : Nat) : total_pixel_difference (altF (k + 1)) (altF k) = 255 := by
  rcases Nat.mod_two_eq_zero_or_one k with h | h
  · have h1 : (k + 1) % 2 = 1 := by omega
    simp only [altF, h, h1]
    decide
  · have h1 : (k + 1) % 2 = 0 := by omega
    simp only [altF, h, h1]
    decide

theorem appLoop_alt (ftp : Nat) :
    ∀ (n k fc sc : Nat), 1 ≤ fc → fc + n ≤ ftp →
      (appLoop 0 ftp (altStream k n) (altF (k + 1)) fc sc).savedCount = sc + n := by
  intro n
  induction n with
  | zero => intro k fc sc _ _; simp [altStream, appLoop]
  | succ n ih =>
    intro k fc sc hfc hle
    rw [altStream_succ]
    simp only [appLoop]
    rw [if_pos (by omega), if_neg (by omega)]
    rw [if_pos (by rw [tpd_alt]; omega)]
    have hprev : altF k = altF (k + 1 + 1) := (altF_add_two k).symm
    calc (appLoop 0 ftp (altStream (k + 1) n) (altF k) (fc + 1) (sc + 1)).savedCount
        = (appLoop 0 ftp (altStream (k + 1) n) (altF (k + 1 + 1)) (fc + 1) (sc + 1)).savedCount := by
          rw [hprev]
      _ = sc + 1 + n := ih (k + 1) (fc + 1) (sc + 1) (by omega) (by omega)
      _ = sc + (n + 1) := by omega

/-! ### Lemmas about the `scene_capture.py` loop -/

theorem sceneLoop_comps_length (thr : Nat) :
    ∀ (rest : List Frame) (prev : Frame) (fc sc : Nat),
      (sceneLoop thr rest prev fc sc).comps.length = (fc + rest.length) / 2 - fc / 2 := by
  intro rest
  induction rest with
  | nil => intro prev fc sc; simp [sceneLoop]
  | cons f rest ih =>
    intro prev fc sc
    simp only [sceneLoop]
    split
    · have := ih prev (fc + 1) sc
      have hp : (fc + 1) % 2 = 1 := by omega
      simp only [List.length_cons]
      omega
    · have hp : (fc + 1) % 2 = 0 := by omega
      split
      · have := ih f (fc + 1) (sc + 1)
        show (⟨fc + 1, prev, f, total_pixel_difference prev f, true⟩ ::
            (sceneLoop thr rest f (fc + 1) (sc + 1)).comps).length
          = (fc + (rest.length + 1)) / 2 - fc / 2
        simp only [List.length_cons]
        omega
      · have := ih f (fc + 1) sc
        show (⟨fc + 1, prev, f, total_pixel_difference prev f, false⟩ ::
            (sceneLoop thr rest f (fc + 1) sc).comps).length
          = (fc + (rest.length + 1)) / 2 - fc / 2
        simp only [List.length_cons]
        omega

theorem sceneLoop_pos (thr : Nat) :
    ∀ (rest : List Frame) (prev : Frame) (fc sc : Nat),
      ∀ c ∈ (sceneLoop thr rest prev fc sc).comps, c.pos % 2 = 0 ∧ fc < c.pos := by
  intro rest
  induction rest with
  | nil => intro prev fc sc c hc; simp [sceneLoop] at hc
  | cons f rest ih =>
    intro prev fc sc c hc
    simp only [sceneLoop] at hc
    split at hc
    · rcases ih prev (fc + 1) sc c hc with ⟨h1, h2⟩
      exact ⟨h1, by omega⟩
    · split at hc
      · rcases List.mem_cons.mp hc with rfl | hc
        · exact ⟨by show (fc + 1) % 2 = 0; omega, by show fc < fc + 1; omega⟩
        · rcases ih f (fc + 1) (sc + 1) c hc with ⟨h1, h2⟩
          exact ⟨h1, by omega⟩
      · rcases List.mem_cons.mp hc with rfl | hc
        · exact ⟨by show (fc + 1) % 2 = 0; omega, by show fc < fc + 1; omega⟩
        · rcases ih f (fc + 1) sc c hc with ⟨h1, h2⟩
          exact ⟨h1, by omega⟩

theorem sceneLoop_chain (thr : Nat) :
    ∀ (rest : List Frame) (prev : Frame) (fc sc : Nat),
      List.Chain' refCand (sceneLoop thr rest prev fc sc).comps ∧
      (∀ c, (sceneLoop thr rest prev fc sc).comps.head? = some c → c.ref = prev) := by
  intro rest
  induction rest with
  | nil => intro prev fc sc; simp [sceneLoop]
  | cons f rest ih =>
    intro prev fc sc
    simp only [sceneLoop]
    split
    · exact ih prev (fc + 1) sc
    · split
      · rcases ih f (fc + 1) (sc + 1) with ⟨hch, hhd⟩
        refine ⟨List.chain'_cons'.mpr ⟨?_, hch⟩, ?_⟩
        · intro b hb
          have := hhd b (by
            cases hc : (sceneLoop thr rest f (fc + 1) (sc + 1)).comps with
            | nil => simp [hc] at hb
            | cons c l => simp [hc] at hb ⊢; exact hb)
          simpa [refCand] using this
        · intro c hc
          simp only [List.head?_cons, Option.some.injEq] at hc
          subst hc; rfl
      · rcases ih f (fc + 1) sc with ⟨hch, hhd⟩
        refine ⟨List.chain'_cons'.mpr ⟨?_, hch⟩, ?_⟩
        · intro b hb
          have := hhd b (by
            cases hc : (sceneLoop thr rest f (fc + 1) sc).comps with
            | nil => simp [hc] at hb
            | cons c l => simp [hc] at hb ⊢; exact hb)
          simpa [refCand] using this
        · intro c hc
          simp only [List.head?_cons, Option.some.injEq] at hc
          subst hc; rfl

theorem sceneLoop_fired_iff (thr : Nat) :
    ∀ (rest : List Frame) (prev : Frame) (fc sc : Nat),
      ∀ c ∈ (sceneLoop thr rest prev fc sc).comps, (c.fired = true ↔ thr < c.score) := by
  intro rest
  induction rest with
  | nil => intro prev fc sc c hc; simp [sceneLoop] at hc
  | cons f rest ih =>
    intro prev fc sc c hc
    simp only [sceneLoop] at hc
    split at hc
    · exact ih prev (fc + 1) sc c hc
    · split at hc
      · rcases List.mem_cons.mp hc with rfl | hc
        · simpa using (by assumption : thr < total_pixel_difference prev f)
        · exact ih f (fc + 1) (sc + 1) c hc
      · rcases List.mem_cons.mp hc with rfl | hc
        · simpa using (by assumption : ¬ thr < total_pixel_difference prev f)
        · exact ih f (fc + 1) sc c hc

theorem sceneLoop_names (thr : Nat) :
    ∀ (rest : List Frame) (prev : Frame) (fc sc : Nat),
      ∃ k, (sceneLoop thr rest prev fc sc).savedCount = sc + k ∧
        (sceneLoop thr rest prev fc sc).saved.map Prod.fst
          = (List.range' sc k).map sceneFilename := by
  intro rest
  induction rest with
  | nil => intro prev fc sc; exact ⟨0, by simp [sceneLoop]⟩
  | cons f rest ih =>
    intro prev fc sc
    simp only [sceneLoop]
    split
    · exact ih prev (fc + 1) sc
    · split
      · rcases ih f (fc + 1) (sc + 1) with ⟨k, hk, hm⟩
        refine ⟨k + 1, ?_, ?_⟩
        · show (sceneLoop thr rest f (fc + 1) (sc + 1)).savedCount = sc + (k + 1)
          omega
        · show ((sceneFilename sc, f) ::
              (sceneLoop thr rest f (fc + 1) (sc + 1)).saved).map Prod.fst
            = (List.range' sc (k + 1)).map sceneFilename
          simp only [List.map_cons, hm, List.range'_succ]
      · rcases ih f (fc + 1) sc with ⟨k, hk, hm⟩
        exact ⟨k, hk, hm⟩

theorem sceneLoop_nofire (thr h w : Nat) (hthr : h * w * 255 < thr) :
    ∀ (rest : List Frame) (prev : Frame) (fc sc : Nat),
      rest.all (frameDims h w) = true → frameDims h w prev = true →
      (sceneLoop thr rest prev fc sc).savedCount = sc ∧
      (sceneLoop thr rest prev fc sc).saved = [] ∧
      (∀ c ∈ (sceneLoop thr rest prev fc sc).comps, c.fired = false) := by
  intro rest
  induction rest with
  | nil => intro prev fc sc _ _; simp [sceneLoop]
  | cons f rest ih =>
    intro prev fc sc hall hprev
    simp only [List.all_cons, Bool.and_eq_true] at hall
    have hscore : total_pixel_difference prev f ≤ h * w * 255 :=
      total_pixel_difference_le h w prev f hprev
    simp only [sceneLoop]
    split
    · exact ih prev (fc + 1) sc hall.2 hprev
    · split
      · exfalso
        have hlt : thr < total_pixel_difference prev f := by assumption
        omega
      · rcases ih f (fc + 1) sc hall.2 hall.1 with ⟨h1, h2, h3⟩
        refine ⟨h1, h2, ?_⟩
        intro c hc
        rcases List.mem_cons.mp hc with rfl | hc
        · rfl
        · exact h3 c hc

theorem sceneLoop_congr (thr : Nat) :
    ∀ (r1 r2 : List Frame) (prev : Frame) (fc sc : Nat),
      r1.length = r2.length →
      (∀ i, (fc + i + 1) % 2 = 0 → r1[i]? = r2[i]?) →
      sceneLoop thr r1 prev fc sc = sceneLoop thr r2 prev fc sc := by
  intro r1
  induction r1 with
  | nil =>
    intro r2 prev fc sc hlen _
    cases r2 with
    | nil => rfl
    | cons y r2 => simp at hlen
  | cons x r1 ih =>
    intro r2 prev fc sc hlen h
    cases r2 with
    | nil => simp at hlen
    | cons y r2 =>
      have hlen' : r1.length = r2.length := by simpa using hlen
      have h' : ∀ i, (fc + 1 + i + 1) % 2 = 0 → r1[i]? = r2[i]? := by
        intro i hi
        have := h (i + 1) (by omega)
        simpa using this
      by_cases hp : (fc + 1) % 2 = 0
      · have hxy : x = y := by
          have := h 0 (by omega)
          simpa using this
        subst hxy
        simp only [sceneLoop, if_neg (by omega : ¬ (fc + 1) % 2 ≠ 0)]
        have ihr : ∀ sc', sceneLoop thr r1 x (fc + 1) sc' = sceneLoop thr r2 x (fc + 1) sc' :=
          fun sc' => ih r2 x (fc + 1) sc' hlen' h'
        simp only [ihr]
      · simp only [sceneLoop, if_pos (by omega : (fc + 1) % 2 ≠ 0)]
        exact ih r2 prev (fc + 1) sc hlen' h'

/-! ### Decimal formatting and lexicographic filename order -/

theorem decimalDigitsAux_small (fuel n : Nat) (h : n < 10) :
    decimalDigitsAux fuel n = [Nat.digitChar n] := by
  cases fuel with
  | zero => rfl
  | succ fuel => simp [decimalDigitsAux, h]

theorem decimalDigits_small (n : Nat) (h : n < 10) :
    decimalDigits n = [Nat.digitChar n] :=
  decimalDigitsAux_small n n h

theorem decimalDigitsAux_two (fuel k : Nat) (h1 : 10 ≤ k) (h2 : k < 100) (hf : k ≤ fuel) :
    decimalDigitsAux fuel k = [Nat.digitChar (k / 10), Nat.digitChar (k % 10)] := by
  cases fuel with
  | zero => omega
  | succ fuel =>
    rw [decimalDigitsAux, if_neg (by omega)]
    rw [decimalDigitsAux_small fuel (k / 10) (by omega)]
    rfl

theorem decimalDigits_two (n : Nat) (h1 : 10 ≤ n) (h2 : n < 100) :
    decimalDigits n = [Nat.digitChar (n / 10), Nat.digitChar (n % 10)] :=
  decimalDigitsAux_two n n h1 h2 (le_refl n)

theorem decimalDigits_three (n : Nat) (h1 : 100 ≤ n) (h2 : n < 1000) :
    decimalDigits n
      = [Nat.digitChar (n / 100), Nat.digitChar (n / 10 % 10), Nat.digitChar (n % 10)] := by
  cases n with
  | zero => omega
  | succ m =>
    show decimalDigitsAux (m + 1) (m + 1) = _
    rw [decimalDigitsAux, if_neg (by omega)]
    rw [decimalDigitsAux_two m ((m + 1) / 10) (by omega) (by omega)
      (by
        have := Nat.div_lt_self (show 0 < m + 1 by omega) (show 1 < 10 by omega)
        omega)]
    have hdd : (m + 1) / 10 / 10 = (m + 1) / 100 := by
      rw [Nat.div_div_eq_div_mul]
    rw [hdd]
    rfl

theorem fmt3_eq (n : Nat) (h : n < 1000) :
    fmt3 n = [Nat.digitChar (n / 100), Nat.digitChar (n / 10 % 10), Nat.digitChar (n % 10)] := by
  rcases Nat.lt_or_ge n 10 with h10 | h10
  · have e1 : n / 100 = 0 := by omega
    have e2 : n / 10 % 10 = 0 := by omega
    have e3 : n % 10 = n := by omega
    rw [fmt3, decimalDigits_small n h10, e1, e2, e3]
    rfl
  · rcases Nat.lt_or_ge n 100 with h100 | h100
    · have e1 : n / 100 = 0 := by omega
      have e2 : n / 10 % 10 = n / 10 := Nat.mod_eq_of_lt (by omega)
      rw [fmt3, decimalDigits_two n h10 h100, e1, e2]
      rfl
    · rw [fmt3, decimalDigits_three n h100 h]
      rfl

theorem digitChar_lt : ∀ a < 10, ∀ b < 10, a < b → Nat.digitChar a < Nat.digitChar b := by
  decide

theorem lexLe_cons_same (c : Char) (s t : List Char) :
    lexLe (c :: s) (c :: t) = lexLe s t := by
  simp [lexLe, lt_irrefl]

theorem lexLe_append_same (p a b : List Char) :
    lexLe (p ++ a) (p ++ b) = lexLe a b := by
  induction p with
  | nil => rfl
  | cons c p ih => rw [List.cons_append, List.cons_append, lexLe_cons_same, ih]

theorem lexLe_of_lt_head (a b : Char) (s t : List Char) (h : a < b) :
    lexLe (a :: s) (b :: t) = true := by
  simp [lexLe, h]

theorem sceneFilenameL_mono (i j : Nat) (hij : i < j) (hj : j < 1000) :
    lexLe (sceneFilenameL i) (sceneFilenameL j) = true := by
  have hi : i < 1000 := by omega
  rw [sceneFilenameL, sceneFilenameL, fmt3_eq i hi, fmt3_eq j hj,
    List.append_assoc, List.append_assoc, lexLe_append_same]
  have hdd_i : i / 10 / 10 = i / 100 := by rw [Nat.div_div_eq_div_mul]
  have hdd_j : j / 10 / 10 = j / 100 := by rw [Nat.div_div_eq_div_mul]
  simp only [List.cons_append, List.nil_append]
  rcases Nat.lt_trichotomy (i / 100) (j / 100) with h2 | h2 | h2
  · exact lexLe_of_lt_head _ _ _ _ (digitChar_lt _ (by omega) _ (by omega) h2)
  · rw [h2, lexLe_cons_same]
    rcases Nat.lt_trichotomy (i / 10 % 10) (j / 10 % 10) with h1 | h1 | h1
    · exact lexLe_of_lt_head _ _ _ _ (digitChar_lt _ (by omega) _ (by omega) h1)
    · rw [h1, lexLe_cons_same]
      have h0 : i % 10 < j % 10 := by omega
      exact lexLe_of_lt_head _ _ _ _ (digitChar_lt _ (by omega) _ (by omega) h0)
    · exfalso; omega
  · exfalso
    have : i / 100 ≤ j / 100 := Nat.div_le_div_right (Nat.le_of_lt hij)
    omega

theorem sceneFilename_toList (n : Nat) : (sceneFilename n).toList = sceneFilenameL n := rfl

theorem pairwise_lexLe_names (n : Nat) (hn : n ≤ 1000) :
    List.Pairwise (fun a b : String => lexLe a.toList b.toList = true)
      ((List.range n).map sceneFilename) := by
  rw [List.pairwise_map]
  have hlt : List.Pairwise (· < ·) (List.range n) := by
    rw [List.range_eq_range']
    exact List.pairwise_lt_range' 0 n
  refine hlt.imp_of_mem ?_
  intro a b ha hb hab
  rw [sceneFilename_toList, sceneFilename_toList]
  exact sceneFilenameL_mono a b hab (by
    have := List.mem_range.mp hb
    omega)

/-! ### Run-level consequences -/

theorem appRun_names (thr ftp : Nat) (fs : List Frame) :
    (appRun thr ftp fs).saved.map Prod.fst
      = (List.range (appRun thr ftp fs).savedCount).map sceneFilename := by
  cases fs with
  | nil => simp [appRun]
  | cons f0 rest =>
    rcases appLoop_names thr ftp rest f0 0 0 with ⟨k, hk, hm⟩
    show (appLoop thr ftp rest f0 0 0).saved.map Prod.fst
      = (List.range (appLoop thr ftp rest f0 0 0).savedCount).map sceneFilename
    rw [hm, hk, List.range_eq_range']
    simp

theorem sceneRun_names (thr : Nat) (fs : List Frame) :
    (sceneRun thr fs).saved.map Prod.fst
      = (List.range (sceneRun thr fs).savedCount).map sceneFilename := by
  cases fs with
  | nil => simp [sceneRun]
  | cons f0 rest =>
    rcases sceneLoop_names thr rest f0 0 0 with ⟨k, hk, hm⟩
    show (sceneLoop thr rest f0 0 0).saved.map Prod.fst
      = (List.range (sceneLoop thr rest f0 0 0).savedCount).map sceneFilename
    rw [hm, hk, List.range_eq_range']
    simp

theorem appRun_sorted (thr ftp : Nat) (fs : List Frame)
    (h : (appRun thr ftp fs).savedCount ≤ 1000) :
    List.insertionSort savedLe (appRun thr ftp fs).saved = (appRun thr ftp fs).saved := by
  have hpw : List.Pairwise (fun a b : String => lexLe a.toList b.toList = true)
      ((appRun thr ftp fs).saved.map Prod.fst) := by
    rw [appRun_names]
    exact pairwise_lexLe_names _ h
  rw [List.pairwise_map] at hpw
  exact List.Sorted.insertionSort_eq hpw

/-! ### The claims -/

/-- Claim C1, as stated, is false for `src/app.py`: there is no stride-2
sampling there.  On a 5-frame input the loop evaluates the frames with
`frame_count` 2, 3 and 4 — i.e. decoded frames 3, 4 and 5 of the stream,
including the frame at even read position 4 — so 3 of the 5 decoded frames
are evaluated, not about half. -/
theorem claim_C1_counterexample :
    (appRun 0 100 [blackF, whiteF, blackF, whiteF, blackF]).comps.map Comparison.pos
      = [2, 3, 4] := by
  decide

/-- Claim C1 (amended): in the stride-2 variant `src/scene_capture.py`, only
every second decoded frame is evaluated: counting reads 1-based with the
initial reference read as read 1 (so a comparison's `frame_count` value
`pos` corresponds to read position `pos + 1`), every evaluated frame has
even `frame_count` — equivalently, every even read position is skipped — and
the number of evaluated comparisons is `(decoded - 1) / 2`.  In `src/app.py`
there is no such sampling (see the counterexample). -/
theorem claim_C1 (thr : Nat) (fs : List Frame) :
    (sceneRun thr fs).comps.length = (fs.length - 1) / 2 ∧
    ∀ c ∈ (sceneRun thr fs).comps, c.pos % 2 = 0 ∧ 2 ≤ c.pos := by
  cases fs with
  | nil => simp [sceneRun]
  | cons f0 rest =>
    constructor
    · have := sceneLoop_comps_length thr rest f0 0 0
      simpa using this
    · intro c hc
      rcases sceneLoop_pos thr rest f0 0 0 c hc with ⟨h1, h2⟩
      exact ⟨h1, by omega⟩

/-- Witness for C1 on a concrete 3-frame input: one comparison, at
`frame_count = 2`. -/
theorem claim_C1_witness :
    (sceneRun 0 [blackF, whiteF, blackF]).comps.length = (3 - 1) / 2 ∧
    (⟨2, blackF, blackF, 0, false⟩ : Comparison) ∈ (sceneRun 0 [blackF, whiteF, blackF]).comps ∧
    ((⟨2, blackF, blackF, 0, false⟩ : Comparison).pos % 2 = 0 ∧
      2 ≤ (⟨2, blackF, blackF, 0, false⟩ : Comparison).pos) :=
  ⟨(claim_C1 0 [blackF, whiteF, blackF]).1, by decide,
    (claim_C1 0 [blackF, whiteF, blackF]).2 _ (by decide)⟩

/-- Claim C2: in both loop variants, every comparison's reference frame is
the previous comparison's candidate frame — the reference is replaced by the
candidate after every evaluated frame, whether or not the detection fired,
so comparisons chain through consecutive evaluated frames and never compare
against the last saved scene. -/
theorem claim_C2 (thr ftp : Nat) (fs gs : List Frame) :
    List.Chain' refCand (appRun thr ftp fs).comps ∧
    List.Chain' refCand (sceneRun thr gs).comps := by
  constructor
  · cases fs with
    | nil => simp [appRun]
    | cons f0 rest =>
      cases rest with
      | nil => simp [appRun, appLoop]
      | cons f1 rest =>
        show List.Chain' refCand (appLoop thr ftp (f1 :: rest) f0 0 0).comps
        simp only [appLoop]
        split
        · simp only [if_true]
          exact (appLoop_chain thr ftp rest f1 1 0 (le_refl 1)).1
        · simp
  · cases gs with
    | nil => simp [sceneRun]
    | cons f0 rest => exact (sceneLoop_chain thr rest f0 0 0).1

/-- Claim C3: a detection fires exactly when the score strictly exceeds the
threshold (both variants), and when the threshold is strictly above the
maximal possible score `height × width × 255` for the input's resolution, no
image is written and the saved count is zero. -/
theorem claim_C3 (thr ftp h w : Nat) (fs : List Frame) :
    (∀ c ∈ (appRun thr ftp fs).comps, (c.fired = true ↔ thr < c.score)) ∧
    (∀ c ∈ (sceneRun thr fs).comps, (c.fired = true ↔ thr < c.score)) ∧
    (fs.all (frameDims h w) = true → h * w * 255 < thr →
      (appRun thr ftp fs).savedCount = 0 ∧ (appRun thr ftp fs).saved = [] ∧
      (sceneRun thr fs).savedCount = 0 ∧ (sceneRun thr fs).saved = []) := by
  cases fs with
  | nil => simp [appRun, sceneRun]
  | cons f0 rest =>
    refine ⟨appLoop_fired_iff thr ftp rest f0 0 0, sceneLoop_fired_iff thr rest f0 0 0, ?_⟩
    intro hdims hthr
    simp only [List.all_cons, Bool.and_eq_true] at hdims
    rcases appLoop_nofire thr ftp h w hthr rest f0 0 0 hdims.2 hdims.1 with ⟨a1, a2, _⟩
    rcases sceneLoop_nofire thr h w hthr rest f0 0 0 hdims.2 hdims.1 with ⟨s1, s2, _⟩
    exact ⟨a1, a2, s1, s2⟩

/-- Witness for C3: 1×1 frames, threshold 256 > 1·1·255, zero saved images
in both variants. -/
theorem claim_C3_witness :
    ([blackF, whiteF].all (frameDims 1 1) = true ∧ 1 * 1 * 255 < 256) ∧
    (appRun 256 100 [blackF, whiteF]).savedCount = 0 ∧
    (appRun 256 100 [blackF, whiteF]).saved = [] ∧
    (sceneRun 256 [blackF, whiteF]).savedCount = 0 ∧
    (sceneRun 256 [blackF, whiteF]).saved = [] :=
  ⟨⟨by decide, by decide⟩,
    ((claim_C3 256 100 1 1 [blackF, whiteF]).2.2 (by decide) (by decide)).1,
    ((claim_C3 256 100 1 1 [blackF, whiteF]).2.2 (by decide) (by decide)).2.1,
    ((claim_C3 256 100 1 1 [blackF, whiteF]).2.2 (by decide) (by decide)).2.2.1,
    ((claim_C3 256 100 1 1 [blackF, whiteF]).2.2 (by decide) (by decide)).2.2.2⟩

/-- Claim C4 is right about the intent but the code divides by zero: with
`fps = 0`, `src/app.py` line 238 (`duration_video = total_frames / fps`)
raises `ZeroDivisionError` before the loop starts; the blanket `except`
reports an error and the video is not processed at all — the code does not
fall back to processing `total_frame_count` frames. -/
theorem claim_C4 :
    appProcess true 0 240 4 3000000 [blackF, whiteF, blackF] = .processingError ∧
    Outcome.isFailure (appProcess true 0 240 4 3000000 [blackF, whiteF, blackF]) = true :=
  ⟨rfl, rfl⟩

/-- Claim C5: for every cutoff configuration, the number of evaluated
comparisons in the `src/app.py` loop never exceeds
`min(total_frame_count, floor(fps × cutoff_seconds))` (on the `fps = 0`
error path nothing is evaluated at all). -/
theorem claim_C5 (isOpened : Bool) (fps : ℚ) (total dur thr : Nat) (frames : List Frame) :
    (appProcess isOpened fps total dur thr frames).evaluatedCount
      ≤ min total ((fps * (dur : ℚ)).floor.toNat) := by
  unfold appProcess
  split
  · simp [Outcome.evaluatedCount]
  · split
    · simp [Outcome.evaluatedCount]
    · simp only [Outcome.evaluatedCount]
      cases frames with
      | nil => simp [appRun]
      | cons f0 rest =>
        have hlen := appLoop_comps_length_le thr
          (if ((fps * (dur : ℚ)).floor).toNat > total then total
            else ((fps * (dur : ℚ)).floor).toNat) rest f0 0 0
        have hmin : (if ((fps * (dur : ℚ)).floor).toNat > total then total
            else ((fps * (dur : ℚ)).floor).toNat)
            = min total ((fps * (dur : ℚ)).floor).toNat := by
          split <;> omega
        show (appLoop thr
          (if ((fps * (dur : ℚ)).floor).toNat > total then total
            else ((fps * (dur : ℚ)).floor).toNat) rest f0 0 0).comps.length
          ≤ min total ((fps * (dur : ℚ)).floor).toNat
        omega

/-- Claim C6 (amended): for any run that saves at most 1000 images, the saved
filenames are exactly `scene_000.jpg`, …, `scene_(saved_count-1)` in
chronological order (no gaps, no repeats, in both loop variants), and
sorting the saved `src/app.py` images by Python string comparison of their
filenames — what the `sorted(os.listdir(...))` read-back does — leaves them
in chronological, i.e. detection, order.  The 1000-image proviso is needed:
from index 1000 on the zero-padding is no longer fixed-width (see the
counterexample). -/
theorem claim_C6 (thr ftp : Nat) (fs gs : List Frame)
    (hle : (appRun thr ftp fs).savedCount ≤ 1000) :
    (appRun thr ftp fs).saved.map Prod.fst
      = (List.range (appRun thr ftp fs).savedCount).map sceneFilename ∧
    (sceneRun thr gs).saved.map Prod.fst
      = (List.range (sceneRun thr gs).savedCount).map sceneFilename ∧
    List.insertionSort savedLe (appRun thr ftp fs).saved = (appRun thr ftp fs).saved :=
  ⟨appRun_names thr ftp fs, sceneRun_names thr gs, appRun_sorted thr ftp fs hle⟩

/-- Witness for C6 on a run with two detections. -/
theorem claim_C6_witness :
    (appRun 0 100 [blackF, whiteF, blackF, whiteF]).savedCount ≤ 1000 ∧
    ((appRun 0 100 [blackF, whiteF, blackF, whiteF]).saved.map Prod.fst
      = (List.range (appRun 0 100 [blackF, whiteF, blackF, whiteF]).savedCount).map
          sceneFilename) ∧
    ((sceneRun 0 [blackF, whiteF, whiteF, blackF, whiteF]).saved.map Prod.fst
      = (List.range (sceneRun 0 [blackF, whiteF, whiteF, blackF, whiteF]).savedCount).map
          sceneFilename) ∧
    List.insertionSort savedLe (appRun 0 100 [blackF, whiteF, blackF, whiteF]).saved
      = (appRun 0 100 [blackF, whiteF, blackF, whiteF]).saved :=
  ⟨by decide,
    (claim_C6 0 100 [blackF, whiteF, blackF, whiteF]
      [blackF, whiteF, whiteF, blackF, whiteF] (by decide)).1,
    (claim_C6 0 100 [blackF, whiteF, blackF, whiteF]
      [blackF, whiteF, whiteF, blackF, whiteF] (by decide)).2.1,
    (claim_C6 0 100 [blackF, whiteF, blackF, whiteF]
      [blackF, whiteF, whiteF, blackF, whiteF] (by decide)).2.2⟩

/-- On an alternating stream with threshold 0, every evaluated comparison
fires, so the `src/app.py` run saves one image per evaluated frame. -/
theorem appRun_alt (ftp n : Nat) (h0 : 0 < ftp) (h : 1 + n ≤ ftp) :
    (appRun 0 ftp (altF 0 :: altF 1 :: altStream 2 n)).savedCount = n := by
  show (appLoop 0 ftp (altF 1 :: altStream 2 n) (altF 0) 0 0).savedCount = n
  simp only [appLoop]
  rw [if_pos h0]
  simp only [if_true]
  have h13 : altF 1 = altF (1 + 2) := (altF_add_two 1).symm
  rw [h13]
  have := appLoop_alt ftp n 2 (0 + 1) 0 (by omega) (by omega)
  simpa using this

/-- Claim C6, as stated, is false: a run can save 1001 images, and then save
number 1000 is written as `scene_1000.jpg` — a four-digit index, not a
fixed-width three-digit one — which moreover sorts lexicographically before
`scene_999.jpg`, the chronologically earlier save, so lexicographic
read-back order differs from detection order. -/
theorem claim_C6_counterexample :
    (appRun 0 2000 bigAltInput).savedCount = 1001 ∧
    ((appRun 0 2000 bigAltInput).saved.map Prod.fst)[999]? = some "scene_999.jpg" ∧
    ((appRun 0 2000 bigAltInput).saved.map Prod.fst)[1000]? = some "scene_1000.jpg" ∧
    lexLe "scene_1000.jpg".toList "scene_999.jpg".toList = true ∧
    "scene_1000.jpg" ≠ "scene_999.jpg" := by
  have hsc : (appRun 0 2000 bigAltInput).savedCount = 1001 :=
    appRun_alt 2000 1001 (by omega) (by omega)
  refine ⟨hsc, ?_, ?_, by decide, by decide⟩
  · rw [appRun_names, hsc, List.getElem?_map, List.getElem?_range (by omega)]
    show some (sceneFilename 999) = some "scene_999.jpg"
    decide
  · rw [appRun_names, hsc, List.getElem?_map, List.getElem?_range (by omega)]
    show some (sceneFilename 1000) = some "scene_1000.jpg"
    decide

/-- Claim C7, as stated, is false on the code: when the video opens but the
very first `cap.read()` fails, `src/app.py` raises no error at all — the
loop body never runs, and the run completes "successfully" with zero saved
images (no `SourceUnavailable` is reported). -/
theorem claim_C7_counterexample :
    appProcess true 30 240 4 3000000 [] = .completed ⟨0, [], []⟩ ∧
    Outcome.isFailure (appProcess true 30 240 4 3000000 []) = false :=
  ⟨rfl, rfl⟩

/-- Claim C7 (amended): a source that opens but yields no decodable frame
completes without an error, with zero output images and zero saved count —
only a source that fails to open is reported as an error — and in batch
mode, whatever one video's outcome, the remaining inputs are still
processed. -/
theorem claim_C7 (fps : ℚ) (total dur thr : Nat) (fs : List Frame)
    (v : VideoInput) (vs : List VideoInput) (hfps : fps ≠ 0) :
    appProcess true fps total dur thr [] = .completed ⟨0, [], []⟩ ∧
    appProcess false fps total dur thr fs = .openFailed ∧
    batchProcess dur thr (v :: vs)
      = appProcess v.isOpened v.fps v.total dur thr v.frames :: batchProcess dur thr vs := by
  refine ⟨?_, rfl, by simp [batchProcess]⟩
  simp [appProcess, hfps, appRun]

/-- Witness for C7 with a concrete 30 fps metadata and an empty frame
stream. -/
theorem claim_C7_witness :
    (30 : ℚ) ≠ 0 ∧
    appProcess true 30 240 4 3000000 [] = .completed ⟨0, [], []⟩ ∧
    appProcess false 30 240 4 3000000 [blackF] = .openFailed :=
  ⟨by norm_num,
    (claim_C7 30 240 4 3000000 [blackF] ⟨true, 30, 240, []⟩ [] (by norm_num)).1,
    (claim_C7 30 240 4 3000000 [blackF] ⟨true, 30, 240, []⟩ [] (by norm_num)).2.1⟩

/-- Claim C8 is right about the intent but the code drops write failures:
`cv2.imwrite`'s return value is ignored in both variants, so when the
destination rejects every write, the run still reports `saved_count = 2`
while zero images are persisted — the reported count exceeds the persisted
collection and no `WriteError` exists in the code. -/
theorem claim_C8 :
    (appRun 0 100 [blackF, whiteF, blackF, whiteF]).savedCount = 2 ∧
    persistedImages (fun _ => false) (appRun 0 100 [blackF, whiteF, blackF, whiteF]) = [] ∧
    ¬ ((appRun 0 100 [blackF, whiteF, blackF, whiteF]).savedCount
        ≤ (persistedImages (fun _ => false)
            (appRun 0 100 [blackF, whiteF, blackF, whiteF])).length) := by
  decide

/-- Claim C9, as stated, is false for `src/app.py`: the frame decoded by the
pre-loop `cap.read()` is thrown away when the `frame_count == 1` iteration
overwrites `prev_frame`, so the first comparison's reference side is the
*second* decoded frame, not the first. -/
theorem claim_C9_counterexample :
    (appRun 0 100 [blackF, whiteF, blackF]).comps.map Comparison.ref = [whiteF] ∧
    whiteF ≠ blackF := by
  decide

/-- Claim C9 (amended): in `src/scene_capture.py` the first decoded frame is
the initial reference — it is the reference side of the first comparison and,
having no comparison at positions below `frame_count = 2`, is never itself
evaluated as a candidate; in `src/app.py` the reference side of the first
comparison is the second decoded frame (the first is discarded unused). -/
theorem claim_C9 (thr ftp : Nat) (f0 f1 : Frame) (rest : List Frame) :
    (∀ c, (sceneRun thr (f0 :: rest)).comps.head? = some c → c.ref = f0) ∧
    (∀ c ∈ (sceneRun thr (f0 :: rest)).comps, 2 ≤ c.pos ∧ c.pos % 2 = 0) ∧
    (∀ c, (appRun thr ftp (f0 :: f1 :: rest)).comps.head? = some c → c.ref = f1) := by
  refine ⟨(sceneLoop_chain thr rest f0 0 0).2, ?_, ?_⟩
  · intro c hc
    rcases sceneLoop_pos thr rest f0 0 0 c hc with ⟨h1, h2⟩
    exact ⟨by omega, h1⟩
  · show ∀ c, (appLoop thr ftp (f1 :: rest) f0 0 0).comps.head? = some c → c.ref = f1
    simp only [appLoop]
    split
    · simp only [if_true]
      exact (appLoop_chain thr ftp rest f1 1 0 (le_refl 1)).2
    · simp

/-- Witness for C9 on concrete 3- and 4-frame inputs. -/
theorem claim_C9_witness :
    ((sceneRun 0 [blackF, whiteF, whiteF]).comps.head?
        = some ⟨2, blackF, whiteF, 255, true⟩) ∧
    (⟨2, blackF, whiteF, 255, true⟩ : Comparison).ref = blackF ∧
    ((⟨2, blackF, whiteF, 255, true⟩ : Comparison) ∈
        (sceneRun 0 [blackF, whiteF, whiteF]).comps) ∧
    (2 ≤ (⟨2, blackF, whiteF, 255, true⟩ : Comparison).pos ∧
      (⟨2, blackF, whiteF, 255, true⟩ : Comparison).pos % 2 = 0) ∧
    ((appRun 0 100 [blackF, whiteF, whiteF, whiteF]).comps.head?
        = some ⟨2, whiteF, whiteF, 0, false⟩) ∧
    (⟨2, whiteF, whiteF, 0, false⟩ : Comparison).ref = whiteF :=
  ⟨by decide,
    (claim_C9 0 100 blackF whiteF [whiteF, whiteF]).1 _ (by decide),
    by decide,
    (claim_C9 0 100 blackF whiteF [whiteF, whiteF]).2.1 _ (by decide),
    by decide,
    (claim_C9 0 100 blackF whiteF [whiteF, whiteF]).2.2 _ (by decide)⟩

/-- Claim C10: in the stride-2 variant, skipped frames never influence the
output.  Two equally long inputs that agree on every even 0-based stream
position (the initial reference and all evaluated frames) — i.e. differ at
most in the pixel content of skipped frames — produce identical saved images
and identical saved counts. -/
theorem claim_C10 (thr : Nat) (l1 l2 : List Frame)
    (hlen : l1.length = l2.length) (heq : agreeOnEven l1 l2 = true) :
    (sceneRun thr l1).saved = (sceneRun thr l2).saved ∧
    (sceneRun thr l1).savedCount = (sceneRun thr l2).savedCount := by
  have hidx : ∀ i, i % 2 = 0 → l1[i]? = l2[i]? := by
    intro i hi
    rcases Nat.lt_or_ge i l1.length with hlt | hge
    · have h := (List.all_eq_true.mp heq) i (List.mem_range.mpr hlt)
      rw [if_pos hi] at h
      exact eq_of_beq h
    · rw [List.getElem?_eq_none (by omega), List.getElem?_eq_none (by omega)]
  have hrun : sceneRun thr l1 = sceneRun thr l2 := by
    cases l1 with
    | nil =>
      cases l2 with
      | nil => rfl
      | cons b r2 => simp at hlen
    | cons a r1 =>
      cases l2 with
      | nil => simp at hlen
      | cons b r2 =>
        have hab : a = b := by
          have := hidx 0 (by omega)
          simpa using this
        subst hab
        show sceneLoop thr r1 a 0 0 = sceneLoop thr r2 a 0 0
        apply sceneLoop_congr thr r1 r2 a 0 0 (by simpa using hlen)
        intro i hi
        have := hidx (i + 1) (by omega)
        simpa using this
  exact ⟨by rw [hrun], by rw [hrun]⟩

/-- Witness for C10: changing only the skipped middle frame leaves the
output unchanged. -/
theorem claim_C10_witness :
    ([blackF, whiteF, blackF] : List Frame).length
        = ([blackF, blackF, blackF] : List Frame).length ∧
    agreeOnEven [blackF, whiteF, blackF] [blackF, blackF, blackF] = true ∧
    (sceneRun 0 [blackF, whiteF, blackF]).saved
        = (sceneRun 0 [blackF, blackF, blackF]).saved ∧
    (sceneRun 0 [blackF, whiteF, blackF]).savedCount
        = (sceneRun 0 [blackF, blackF, blackF]).savedCount :=
  ⟨by decide, by decide,
    (claim_C10 0 [blackF, whiteF, blackF] [blackF, blackF, blackF] (by decide) (by decide)).1,
    (claim_C10 0 [blackF, whiteF, blackF] [blackF, blackF, blackF] (by decide) (by decide)).2⟩

end IntroFrame
